import Mathlib

/-!
Shallow embedding of the wit-limbo adapter (`src/lib.rs`): a WebAssembly
component that bridges a synchronous host interface to the limbo SQL engine.
The embedded parts are the ones the adapter itself implements:

* `imported_random` — the custom getrandom hook forwarding to the host's
  `random_byte` import (lib.rs lines 25-32);
* `Component.new` — the database constructor dispatching on the path
  (lib.rs lines 48-85);
* `InnerStatement.all` — the drain loop stepping a prepared statement
  (lib.rs lines 113-137), modelled over a script of engine step results,
  since `limbo_core::Statement::step` belongs to the external engine;
* `DatabaseStorage.read_page` / `write_page` / `sync` — the storage
  backend handed to the engine's pager (lib.rs lines 163-194).

Machine integers (`usize`) are modelled as `Nat`; every theorem that
involves a page index assumes `1 ≤ page_idx`, the precondition the adapter
itself asserts (`assert!(page_idx > 0)`) and the spec declares a caller
contract, so truncated `Nat` subtraction and `usize` subtraction agree
everywhere a theorem applies.  Aborts (`panic!`, `assert!`, `todo!`,
`unreachable!`) are modelled as an explicit `panicked` outcome.
-/

/-- `limbo_core::Value`: the engine-side tagged value (lib.rs lines 139-148
match on it).  The `Float` payload is an IEEE-754 double; the adapter copies
it verbatim, so it is carried here as its 64-bit pattern. -/
inductive Value
  | null
  | integer (i : Int)
  | float (bits : Nat)
  | text (s : String)
  | blob (b : List Nat)
deriving DecidableEq

/-- `RecordValue`: the boundary tagged value handed back to the host
(generated from the WIT world; lib.rs lines 139-148 construct it). -/
inductive RecordValue
  | null
  | integer (i : Int)
  | float (bits : Nat)
  | text (s : String)
  | blob (b : List Nat)
deriving DecidableEq

/-- `impl From<limbo_core::Value> for RecordValue` (lib.rs lines 139-149):
tag-preserving copy of the payload. -/
def RecordValue.ofValue : Value → RecordValue
  | .null => .null
  | .integer i => .integer i
  | .float f => .float f
  | .text s => .text s
  | .blob b => .blob b

/-- One result of `limbo_core::Statement::step` as matched by
`InnerStatement::all` (lib.rs lines 117-132).  `row` carries the values that
`stmt.row().unwrap().get_values()` yields at that step; `error` is the
`Err(e)` arm, with the engine's `LimboError` abstracted to an opaque id
(the error type lives in the external engine and the adapter only ever
formats it into a panic message). -/
inductive StepResult
  | row (vals : List Value)
  | io
  | interrupt
  | done
  | busy
  | error (e : Nat)
deriving DecidableEq

/-- Result of the drain loop.  `ok` is the normal return of the accumulated
batch; `panicked` is the `panic!("Error: ...")` arm, which aborts and
returns nothing; `outOfScript` is a model artifact for a finite step script
that ends before a terminal step (the real `step` always answers). -/
inductive AllOutcome
  | ok (rows : List (List RecordValue))
  | panicked
  | outOfScript
deriving DecidableEq

/-- The loop body of `InnerStatement::all` (lib.rs lines 115-134) with the
accumulator `ret` explicit, consuming the engine's step results in order:
`Row` converts and appends the row, `IO` loops, `Interrupt`/`Done`/`Busy`
break and return the batch, `Err` panics. -/
def allGo : List (List RecordValue) → List StepResult → AllOutcome
  | _, [] => .outOfScript
  | acc, s :: rest =>
    match s with
    | .row vals => allGo (acc ++ [vals.map RecordValue.ofValue]) rest
    | .io => allGo acc rest
    | .interrupt => .ok acc
    | .done => .ok acc
    | .busy => .ok acc
    | .error _ => .panicked

/-- `InnerStatement::all` (lib.rs lines 113-137): drain the statement whose
successive `step` results are `script`, starting from the empty batch. -/
def statementAll (script : List StepResult) : AllOutcome :=
  allGo [] script

/-- Steps on which the loop continues (the `Row` and `IO` arms). -/
def nonTerminalStep : StepResult → Bool
  | .row _ => true
  | .io => true
  | _ => false

/-- Steps on which the loop breaks and returns the batch (the `Interrupt`,
`Done` and `Busy` arms). -/
def terminalStep : StepResult → Bool
  | .interrupt => true
  | .done => true
  | .busy => true
  | _ => false

/-- The rows a step sequence emits, already converted to boundary values,
in emission order. -/
def rowsOf : List StepResult → List (List RecordValue)
  | [] => []
  | .row vals :: rest => vals.map RecordValue.ofValue :: rowsOf rest
  | _ :: rest => rowsOf rest

/-- `limbo_core::Completion` as the adapter consumes it: a pending
operation carrying either a destination buffer (read) or a source buffer
(write).  Bytes are `Nat`s; only lengths matter to the storage layer. -/
inductive Completion
  | read (buf : List Nat)
  | write (buf : List Nat)
deriving DecidableEq

/-- A call issued against the underlying `limbo_core::File` object:
positioned read or write of `len` bytes at byte offset `pos`. -/
inductive FileCall
  | pread (pos len : Nat)
  | pwrite (pos len : Nat)
deriving DecidableEq

/-- The adapter-level outcome of a storage entry point: `ok` means the
control path reached the file call and returned its propagated result;
`validationError` is `Err(LimboError::NotADB)`; `panicked` is an abort
(`assert!`, `unreachable!`, `todo!`). -/
inductive StorageOutcome
  | ok
  | validationError
  | panicked
deriving DecidableEq

/-- Outcome of a storage entry point together with every call it issued
against the underlying file, in order. -/
structure StorageResult where
  outcome : StorageOutcome
  calls : List FileCall
deriving DecidableEq

namespace DatabaseStorage

/-- `DatabaseStorage::read_page` (lib.rs lines 164-177):
extract the read completion (`unreachable!` on any other variant), take the
destination buffer's length, `assert!(page_idx > 0)`, reject a length
outside `512..=65536` or failing `size & (size - 1) == 0` with
`LimboError::NotADB`, else `pread` at `(page_idx - 1) * size`. -/
def read_page (page_idx : Nat) (c : Completion) : StorageResult :=
  match c with
  | .write _ => ⟨.panicked, []⟩
  | .read buf =>
    if page_idx = 0 then ⟨.panicked, []⟩
    else if ¬(512 ≤ buf.length ∧ buf.length ≤ 65536) ∨
        buf.length &&& (buf.length - 1) ≠ 0 then
      ⟨.validationError, []⟩
    else
      ⟨.ok, [.pread ((page_idx - 1) * buf.length) buf.length]⟩

/-- `DatabaseStorage::write_page` (lib.rs lines 179-189): no validation at
all — `pwrite` the buffer at `(page_idx - 1) * buffer.len()`.  (For
`page_idx = 0` the Rust `usize` subtraction would overflow; every theorem
below assumes `1 ≤ page_idx`, where `Nat` and `usize` agree.) -/
def write_page (page_idx : Nat) (buffer : List Nat) : StorageResult :=
  ⟨.ok, [.pwrite ((page_idx - 1) * buffer.length) buffer.length]⟩

/-- `DatabaseStorage::sync` (lib.rs lines 191-193): `todo!()` — aborts the
process for every completion, touching nothing. -/
def sync (_c : Completion) : StorageResult :=
  ⟨.panicked, []⟩

end DatabaseStorage

/-- Outcome of `Component::new`: the `":memory:"` arm builds the ephemeral
in-memory database (its body is a sequence of external-engine calls); the
catch-all arm is `todo!()`, which aborts. -/
inductive NewOutcome
  | memoryOpen
  | panicked
deriving DecidableEq

namespace Component

/-- `<Component as GuestDatabase>::new` (lib.rs lines 48-85): match on the
path string — `":memory:"` opens the ephemeral store, anything else hits
`todo!()`. -/
def new (path : String) : NewOutcome :=
  if path = ":memory:" then .memoryOpen else .panicked

end Component

/-- The loop of `imported_random` (lib.rs lines 27-29) with the host
channel explicit: `channel k` is the byte the `random_byte()` import
returns on its `k`-th invocation.  Iteration `i` performs invocation
number `calls` and stores its result at position `i`; the loop enters with
`calls = i`, so requests stay in strict one-byte order.  Returns the final
buffer and the total number of `random_byte()` invocations. -/
def fillLoop (channel : Nat → Nat) (buf : List Nat) (calls i : Nat) :
    List Nat × Nat :=
  if i < buf.length then
    fillLoop channel (buf.set i (channel calls)) (calls + 1) (i + 1)
  else
    (buf, calls)
termination_by buf.length - i
decreasing_by simp only [List.length_set]; omega

/-- `imported_random` (lib.rs lines 25-32): fill `dest` by calling the
host's `random_byte()` once per index, in index order. -/
def imported_random (channel : Nat → Nat) (dest : List Nat) :
    List Nat × Nat :=
  fillLoop channel dest 0 0

/-- The global invariant claimed by the spec (§3), stated over the code:
every buffer passed into the page store whose length differs from the
PageSize fixed at database open time (any power of two in [512, 65536])
is rejected rather than accepted.  The code refutes this: neither entry
point ever compares the buffer against an open-time size —
`DatabaseStorage` does not even store one. -/
def revalidatesAgainstOpenPageSize : Prop :=
  ∀ openSize : Nat, 512 ≤ openSize → openSize ≤ 65536 →
    (∃ k, openSize = 2 ^ k) →
    ∀ page_idx : Nat, ∀ buf : List Nat, 1 ≤ page_idx →
      buf.length ≠ openSize →
      (DatabaseStorage.write_page page_idx buf).outcome ≠ StorageOutcome.ok ∧
      (DatabaseStorage.read_page page_idx (Completion.read buf)).outcome ≠
        StorageOutcome.ok

section StatementTheorems

/-- Loop invariant for the drain loop: a prefix of `Row`/`IO` steps
followed by a terminal step returns the accumulator extended by exactly
the prefix's rows, ignoring everything after the terminal step. -/
theorem allGo_append (pre : List StepResult) (acc : List (List RecordValue))
    (t : StepResult) (rest : List StepResult)
    (hpre : ∀ s ∈ pre, nonTerminalStep s = true)
    (ht : terminalStep t = true) :
    allGo acc (pre ++ t :: rest) = .ok (acc ++ rowsOf pre) := by
  induction pre generalizing acc with
  | nil =>
    cases t <;> simp_all [allGo, rowsOf, terminalStep]
  | cons s pre ih =>
    have hs : nonTerminalStep s = true := hpre s (by simp)
    have hpre' : ∀ x ∈ pre, nonTerminalStep x = true := by
      intro x hx; exact hpre x (by simp [hx])
    cases s with
    | row vals =>
      have h := ih (acc ++ [vals.map RecordValue.ofValue]) hpre'
      simpa [allGo, rowsOf] using h
    | io =>
      have h := ih acc hpre'
      simpa [allGo, rowsOf] using h
    | interrupt => simp [nonTerminalStep] at hs
    | done => simp [nonTerminalStep] at hs
    | busy => simp [nonTerminalStep] at hs
    | error e => simp [nonTerminalStep] at hs

/-- C3: if the stepping sequence is K rows (with interleaved `IO` steps)
followed by `Interrupt`, `Done` or `Busy`, `all()` stops there and returns
exactly those K rows in emission order — an `ok` batch, never an abort. -/
theorem statementAll_terminal (pre : List StepResult) (t : StepResult)
    (rest : List StepResult)
    (hpre : ∀ s ∈ pre, nonTerminalStep s = true)
    (ht : terminalStep t = true) :
    statementAll (pre ++ t :: rest) = .ok (rowsOf pre) := by
  have h := allGo_append pre [] t rest hpre ht
  simpa [statementAll] using h

theorem statementAll_terminal_witness :
    statementAll
      [.row [Value.integer 1], .io, .row [Value.text "a"], .busy,
        .row [Value.integer 7]] =
      .ok [[RecordValue.integer 1], [RecordValue.text "a"]] := by
  have h := statementAll_terminal
    [.row [Value.integer 1], .io, .row [Value.text "a"]] .busy
    [.row [Value.integer 7]] (by decide) (by decide)
  simpa [rowsOf, RecordValue.ofValue] using h

/-- C4: an engine-reported error during stepping hits the `panic!` arm —
the process aborts and the row already collected is discarded rather than
returned or attached to a structured error. -/
theorem statementAll_error_aborts :
    statementAll [.row [Value.integer 1], .error 0] = .panicked := rfl

/-- C9: a statement whose very first step reports `Done` — a zero-row
query, or a statement already drained to `Done` being drained again —
returns the empty batch with no error and consumes nothing further. -/
theorem statementAll_done_empty (rest : List StepResult) :
    statementAll (.done :: rest) = .ok [] := rfl

end StatementTheorems

section StorageTheorems

/-- C5: `sync` aborts via `todo!()` on every completion instead of
returning an `Unimplemented`/`Unsupported` error; shown here at a concrete
read completion. -/
theorem sync_aborts :
    DatabaseStorage.sync (Completion.read []) =
      ⟨StorageOutcome.panicked, []⟩ := rfl

/-- C7: `Component::new` on any path other than `":memory:"` hits
`todo!()` and aborts instead of surfacing a configuration error; shown
here at a concrete file path. -/
theorem component_new_nonmemory_aborts :
    Component.new "test.db" = NewOutcome.panicked := rfl

/-- C10: a completion that is not the read variant makes `read_page` hit
`unreachable!` and abort before any validation or file access. -/
theorem read_page_nonread_aborts (page_idx : Nat) (buf : List Nat) :
    DatabaseStorage.read_page page_idx (Completion.write buf) =
      ⟨StorageOutcome.panicked, []⟩ := rfl

end StorageTheorems

section GeometryTheorems

/-- The bit trick of the validation check: for a positive length,
`L &&& (L - 1) = 0` holds exactly when `L` is a power of two. -/
theorem land_pred_eq_zero_iff :
    ∀ L : Nat, 1 ≤ L → (L &&& (L - 1) = 0 ↔ ∃ k, L = 2 ^ k) := by
  intro L
  induction L using Nat.strong_induction_on with
  | _ L ih =>
    intro hL
    rcases Nat.even_or_odd L with he | ho
    · obtain ⟨m, hm⟩ := he
      have hm2 : L = 2 * m := by omega
      have hm1 : 1 ≤ m := by omega
      have hdiv : (L &&& (L - 1)) / 2 = m &&& (m - 1) := by
        rw [Nat.and_div_two]
        have e1 : L / 2 = m := by omega
        have e2 : (L - 1) / 2 = m - 1 := by omega
        rw [e1, e2]
      have hmod : (L &&& (L - 1)) % 2 = 0 := by
        rcases Nat.mod_two_eq_zero_or_one (L &&& (L - 1)) with h0 | h1
        · exact h0
        · have hb := Nat.and_mod_two_eq_one.mp h1
          omega
      have key : L &&& (L - 1) = 0 ↔ m &&& (m - 1) = 0 := by
        constructor
        · intro hz
          rw [← hdiv, hz]
        · intro hz
          have hz2 : (L &&& (L - 1)) / 2 = 0 := hdiv.trans hz
          omega
      have imh := ih m (by omega) hm1
      rw [key, imh]
      constructor
      · rintro ⟨k, hk⟩
        exact ⟨k + 1, by rw [hm2, hk]; ring⟩
      · rintro ⟨k, hk⟩
        cases k with
        | zero =>
          simp only [pow_zero] at hk
          omega
        | succ j =>
          rw [pow_succ] at hk
          exact ⟨j, by omega⟩
    · obtain ⟨m, hm⟩ := ho
      by_cases hm0 : m = 0
      · have h1 : L = 1 := by omega
        subst h1
        constructor
        · intro _
          exact ⟨0, rfl⟩
        · intro _
          decide
      · have hne : ¬(L &&& (L - 1) = 0) := by
          intro hz
          have hdiv : (L &&& (L - 1)) / 2 = m := by
            rw [Nat.and_div_two]
            have e1 : L / 2 = m := by omega
            have e2 : (L - 1) / 2 = m := by omega
            rw [e1, e2, Nat.and_self]
          rw [hz] at hdiv
          omega
        have hnp : ¬(∃ k, L = 2 ^ k) := by
          rintro ⟨k, hk⟩
          cases k with
          | zero =>
            simp only [pow_zero] at hk
            omega
          | succ j =>
            rw [pow_succ] at hk
            omega
        exact iff_of_false hne hnp

/-- Unfolding of `read_page` on a read completion with invalid geometry:
the `NotADB` error is returned before any file call. -/
theorem read_page_invalid_eq (page_idx : Nat) (buf : List Nat)
    (hidx : 1 ≤ page_idx)
    (hbad : ¬(512 ≤ buf.length ∧ buf.length ≤ 65536 ∧
      ∃ k, buf.length = 2 ^ k)) :
    DatabaseStorage.read_page page_idx (Completion.read buf) =
      ⟨StorageOutcome.validationError, []⟩ := by
  have hcond : ¬(512 ≤ buf.length ∧ buf.length ≤ 65536) ∨
      buf.length &&& (buf.length - 1) ≠ 0 := by
    by_contra hc
    push_neg at hc
    obtain ⟨⟨h1, h2⟩, h3⟩ := hc
    exact hbad ⟨h1, h2, (land_pred_eq_zero_iff buf.length (by omega)).mp h3⟩
  simp only [DatabaseStorage.read_page]
  rw [if_neg (by omega : ¬page_idx = 0), if_pos hcond]

/-- Unfolding of `read_page` on a read completion with valid geometry:
exactly one `pread` of the buffer's length at `(page_idx - 1) * length`. -/
theorem read_page_valid_eq (page_idx : Nat) (buf : List Nat)
    (hidx : 1 ≤ page_idx) (h512 : 512 ≤ buf.length)
    (h65536 : buf.length ≤ 65536) (hpow : ∃ k, buf.length = 2 ^ k) :
    DatabaseStorage.read_page page_idx (Completion.read buf) =
      ⟨StorageOutcome.ok,
        [FileCall.pread ((page_idx - 1) * buf.length) buf.length]⟩ := by
  have hland : buf.length &&& (buf.length - 1) = 0 :=
    (land_pred_eq_zero_iff buf.length (by omega)).mpr hpow
  have hcond : ¬(¬(512 ≤ buf.length ∧ buf.length ≤ 65536) ∨
      buf.length &&& (buf.length - 1) ≠ 0) := by
    push_neg
    exact ⟨⟨h512, h65536⟩, hland⟩
  simp only [DatabaseStorage.read_page]
  rw [if_neg (by omega : ¬page_idx = 0), if_neg hcond]

/-- C1: a read completion whose destination buffer length is not a power
of two, or falls outside [512, 65536], makes `read_page` fail with the
validation error and issue zero calls against the underlying file. -/
theorem read_page_rejects_bad_geometry (page_idx : Nat) (buf : List Nat)
    (hidx : 1 ≤ page_idx)
    (hbad : ¬(512 ≤ buf.length ∧ buf.length ≤ 65536 ∧
      ∃ k, buf.length = 2 ^ k)) :
    DatabaseStorage.read_page page_idx (Completion.read buf) =
      ⟨StorageOutcome.validationError, []⟩ :=
  read_page_invalid_eq page_idx buf hidx hbad

theorem read_page_rejects_bad_geometry_witness :
    DatabaseStorage.read_page 1 (Completion.read (List.replicate 100 0)) =
      ⟨StorageOutcome.validationError, []⟩ :=
  read_page_rejects_bad_geometry 1 (List.replicate 100 0) (by omega)
    (by
      intro hc
      obtain ⟨h1, -⟩ := hc
      rw [List.length_replicate] at h1
      omega)

/-- C2: for `page_idx ≥ 1` and a destination buffer whose length `p` is a
power of two in [512, 65536], `read_page` issues exactly one positioned
read of `p` bytes at byte offset `(page_idx - 1) * p` and succeeds. -/
theorem read_page_issues_pread (page_idx : Nat) (buf : List Nat)
    (hidx : 1 ≤ page_idx) (h512 : 512 ≤ buf.length)
    (h65536 : buf.length ≤ 65536) (hpow : ∃ k, buf.length = 2 ^ k) :
    DatabaseStorage.read_page page_idx (Completion.read buf) =
      ⟨StorageOutcome.ok,
        [FileCall.pread ((page_idx - 1) * buf.length) buf.length]⟩ :=
  read_page_valid_eq page_idx buf hidx h512 h65536 hpow

theorem read_page_issues_pread_witness :
    DatabaseStorage.read_page 3 (Completion.read (List.replicate 512 0)) =
      ⟨StorageOutcome.ok, [FileCall.pread 1024 512]⟩ := by
  have h := read_page_issues_pread 3 (List.replicate 512 0) (by omega)
    (by rw [List.length_replicate]) (by rw [List.length_replicate]; omega)
    ⟨9, by rw [List.length_replicate]; decide⟩
  rw [List.length_replicate] at h
  exact h

/-- C8, counterexample: the spec's global invariant — every buffer is
re-validated against the open-time PageSize and a mismatch rejected — is
false of the code: with open-time PageSize 4096, a 512-byte buffer is
accepted by `write_page` (the write is issued, outcome `ok`). -/
theorem pageStore_no_open_size_revalidation :
    ¬revalidatesAgainstOpenPageSize := by
  intro h
  have hc := h 4096 (by omega) (by omega) ⟨12, by norm_num⟩ 1
    (List.replicate 512 0) (by omega) (by rw [List.length_replicate]; omega)
  exact hc.1 rfl

/-- C8, amended: the page store validates buffer geometry only against the
buffer itself, never against the PageSize fixed at open time.  For any
`page_idx ≥ 1`: `write_page` issues the write unconditionally for every
buffer length, and `read_page` rejects a buffer exactly when its own
length is not a power of two in [512, 65536]. -/
theorem pageStore_validates_geometry_only (page_idx : Nat) (buf : List Nat)
    (hidx : 1 ≤ page_idx) :
    DatabaseStorage.write_page page_idx buf =
      ⟨StorageOutcome.ok,
        [FileCall.pwrite ((page_idx - 1) * buf.length) buf.length]⟩ ∧
    ((DatabaseStorage.read_page page_idx (Completion.read buf)).outcome =
        StorageOutcome.validationError ↔
      ¬(512 ≤ buf.length ∧ buf.length ≤ 65536 ∧
        ∃ k, buf.length = 2 ^ k)) := by
  refine ⟨rfl, ?_⟩
  by_cases hg : 512 ≤ buf.length ∧ buf.length ≤ 65536 ∧
      ∃ k, buf.length = 2 ^ k
  · rw [read_page_valid_eq page_idx buf hidx hg.1 hg.2.1 hg.2.2]
    simp [hg]
  · rw [read_page_invalid_eq page_idx buf hidx hg]
    simp [hg]

theorem pageStore_validates_geometry_only_witness :
    DatabaseStorage.write_page 2 ([] : List Nat) =
      ⟨StorageOutcome.ok,
        [FileCall.pwrite ((2 - 1) * ([] : List Nat).length)
          ([] : List Nat).length]⟩ ∧
    ((DatabaseStorage.read_page 2 (Completion.read [])).outcome =
        StorageOutcome.validationError ↔
      ¬(512 ≤ ([] : List Nat).length ∧ ([] : List Nat).length ≤ 65536 ∧
        ∃ k, ([] : List Nat).length = 2 ^ k)) :=
  pageStore_validates_geometry_only 2 [] (by omega)

end GeometryTheorems

section EntropyTheorems

/-- Invocation count of the fill loop: entered at position `n` having made
`n` calls, it makes one further call per remaining position. -/
theorem fillLoop_snd (channel : Nat → Nat) :
    ∀ fuel buf n, buf.length - n ≤ fuel →
      (fillLoop channel buf n n).2 = max buf.length n := by
  intro fuel
  induction fuel with
  | zero =>
    intro buf n hle
    rw [fillLoop, if_neg (by omega)]
    simp only []
    omega
  | succ fuel ih =>
    intro buf n hle
    rw [fillLoop]
    by_cases h : n < buf.length
    · rw [if_pos h]
      have hrec := ih (buf.set n (channel n)) (n + 1)
        (by rw [List.length_set]; omega)
      rw [hrec, List.length_set]
      omega
    · rw [if_neg h]
      simp only []
      omega

/-- Contents after the fill loop: positions at or past the entry point get
the channel's response of the same index, earlier positions are kept. -/
theorem fillLoop_get (channel : Nat → Nat) :
    ∀ fuel buf n j, buf.length - n ≤ fuel →
      (fillLoop channel buf n n).1[j]? =
        if n ≤ j ∧ j < buf.length then some (channel j) else buf[j]? := by
  intro fuel
  induction fuel with
  | zero =>
    intro buf n j hle
    rw [fillLoop, if_neg (by omega), if_neg (by omega)]
  | succ fuel ih =>
    intro buf n j hle
    rw [fillLoop]
    by_cases h : n < buf.length
    · rw [if_pos h]
      rw [ih (buf.set n (channel n)) (n + 1) j
        (by rw [List.length_set]; omega)]
      simp only [List.length_set]
      by_cases hj : j = n
      · subst hj
        rw [if_neg (by omega), if_pos ⟨Nat.le_refl j, h⟩,
          List.getElem?_set_self h]
      · rw [List.getElem?_set_ne (by omega : n ≠ j)]
        exact if_congr (by omega) rfl rfl
    · rw [if_neg h, if_neg (by omega)]

/-- C6: filling a destination buffer of length L invokes the host byte
channel exactly L times, and position `i` of the result holds the
channel's `i`-th response — strict request order, nothing fabricated. -/
theorem imported_random_fills_in_order (channel : Nat → Nat)
    (dest : List Nat) :
    (imported_random channel dest).2 = dest.length ∧
    ∀ i, i < dest.length →
      (imported_random channel dest).1[i]? = some (channel i) := by
  constructor
  · have h := fillLoop_snd channel dest.length dest 0 (by omega)
    rw [imported_random, h]
    omega
  · intro i hi
    have h := fillLoop_get channel dest.length dest 0 i (by omega)
    rw [imported_random, h, if_pos ⟨Nat.zero_le i, hi⟩]

theorem imported_random_fills_in_order_witness :
    (imported_random (fun k => k + 10) [0, 0, 0]).2 = 3 ∧
    (imported_random (fun k => k + 10) [0, 0, 0]).1[1]? = some 11 :=
  ⟨(imported_random_fills_in_order (fun k => k + 10) [0, 0, 0]).1,
   (imported_random_fills_in_order (fun k => k + 10) [0, 0, 0]).2 1
     (by decide)⟩

end EntropyTheorems
